import Mathlib

/-!
Verification of the core game logic of `src/src/App.tsx` (a whack-a-mole style
arcade game).  The React component state and its mutators are shallowly
embedded: each `useState` field becomes a field of `GState`, each state
mutator (the `startGame` callback, the timer tick body, the spawn interval
body, the escape-monitor interval body, the `smashTV` callback, and the 300ms
reversion timeout body) becomes a pure function `GState → GState`.

Modelling choices, all traceable to the source:
* Randomness is an explicit parameter: the spawn pick (line 75) is a natural
  number `k` reduced modulo the number of hidden slots; the per-slot escape
  draw `Math.random() < 0.15` (line 98) is a boolean function `esc` of the
  slot id.
* `sparkles` is the number of live sparkle effects (their ids and screen
  positions are presentation data taken from the DOM, lines 132-134).
* `pendingReverts` records the slot ids with a scheduled 300ms reversion
  timeout (lines 142-146).  The source keeps no handle to this timeout and
  never calls `clearTimeout` on it, so no operation removes entries except
  the firing of the timeout itself (`revertTV`).
* `timeLeft` is an integer so that non-negativity is a real statement.
-/

namespace ClankerSmash

/-- Game lifecycle phase; `gameState` at src/src/App.tsx line 23. -/
inductive Phase
  | idle
  | playing
  | ended
deriving DecidableEq, Repr

/-- One of the nine TV slots; interface `TVState`, lines 3-8. -/
structure TVState where
  id : Nat
  isVisible : Bool
  isSmashed : Bool
  showScore : Bool
deriving DecidableEq, Repr

/-- The full core game state (the `useState` fields of `App`, lines 17-30). -/
structure GState where
  score : Nat
  highScore : Nat
  timeLeft : Int
  gameState : Phase
  tvs : List TVState
  sparkles : Nat
  combo : Nat
  missedCount : Nat
  pendingReverts : List Nat
deriving DecidableEq, Repr

/-- The initial slot array (lines 24-26): nine slots, ids 0..8, hidden. -/
def initTvs : List TVState :=
  (List.range 9).map (fun i =>
    { id := i, isVisible := false, isSmashed := false, showScore := false })

/-- Process start (lines 17-30): scores zero, saved high score loaded
(default 0 when absent), phase `idle`, fresh slots, no pending timeouts. -/
def initState (saved : Nat) : GState :=
  { score := 0
    highScore := saved
    timeLeft := 30
    gameState := Phase.idle
    tvs := initTvs
    sparkles := 0
    combo := 0
    missedCount := 0
    pendingReverts := [] }

/-- The `startGame` callback (lines 32-39).  It resets score, timer, combo,
missed count and the slot array and moves to `playing`; it does not touch
`highScore`, live sparkles, or pending reversion timeouts (the source holds
no handle to them). -/
def startGame (s : GState) : GState :=
  { s with
    score := 0
    timeLeft := 30
    gameState := Phase.playing
    combo := 0
    missedCount := 0
    tvs := initTvs }

/-- One firing of the 1-second game timer (lines 42-56).  The interval exists
only while the phase is `playing` (the effect returns early otherwise and its
cleanup clears the interval on phase exit), so the function is the identity
outside `playing`.  The tick body: if the previous value is ≤ 1 the phase
becomes `ended` and the timer value becomes 0, else it decrements. -/
def tick (s : GState) : GState :=
  if s.gameState = Phase.playing then
    if s.timeLeft ≤ 1 then { s with timeLeft := 0, gameState := Phase.ended }
    else { s with timeLeft := s.timeLeft - 1 }
  else s

/-- The save-high-score effect (lines 59-64): when the phase is `ended` and
`score > highScore`, set `highScore := score` and persist it.  The boolean
records whether `localStorage.setItem` was called. -/
def settleHighScore (s : GState) : GState × Bool :=
  if s.gameState = Phase.ended ∧ s.highScore < s.score then
    ({ s with highScore := s.score }, true)
  else (s, false)

/-- The spawn-interval base delay in milliseconds (line 83):
`Math.max(400, 1200 - (30 - timeLeft) * 30)`. -/
def spawnBase (timeLeft : Int) : Int := max 400 (1200 - (30 - timeLeft) * 30)

/-- One firing of the spawn interval (lines 70-80), active only while
`playing`.  It filters the hidden slots, does nothing if there are none, and
otherwise reveals the randomly picked one; the random index
`Math.floor(Math.random() * hiddenTvs.length)` is modelled by `k` reduced
modulo the length. -/
def spawnTV (k : Nat) (s : GState) : GState :=
  if s.gameState = Phase.playing then
    let hiddenTvs := s.tvs.filter (fun tv => !tv.isVisible && !tv.isSmashed)
    match hiddenTvs.get? (k % hiddenTvs.length) with
    | none => s
    | some randomTv =>
        { s with tvs := s.tvs.map (fun tv =>
            if tv.id = randomTv.id then
              { tv with isVisible := true, isSmashed := false, showScore := false }
            else tv) }
  else s

/-- The per-slot escape condition of one escape-monitor firing: the slot is
visible, unsmashed, and its random draw succeeded (`Math.random() < 0.15`,
line 98, modelled by the boolean `esc` of the slot id). -/
def escapeDraw (esc : Nat → Bool) (tv : TVState) : Bool :=
  tv.isVisible && !tv.isSmashed && esc tv.id

/-- One firing of the 500ms escape-monitor interval (lines 90-111), active
only while `playing`.  Each visible unsmashed slot whose draw succeeds is
hidden; for each such slot the body calls `setCombo(0)` (net effect: combo is
0 iff at least one slot escaped, unchanged otherwise) and
`setMissedCount(c => c + 1)` (net effect: plus the number of escaped slots). -/
def escapeTick (esc : Nat → Bool) (s : GState) : GState :=
  if s.gameState = Phase.playing then
    { s with
      tvs := s.tvs.map (fun tv =>
        if tv.isVisible && !tv.isSmashed then
          if esc tv.id then { tv with isVisible := false } else tv
        else tv)
      combo := if (s.tvs.filter (escapeDraw esc)).isEmpty then s.combo else 0
      missedCount := s.missedCount + (s.tvs.filter (escapeDraw esc)).length }
  else s

/-- The slot-array update inside `smashTV` (lines 116-123): find the slot; if
it is absent, hidden, or already smashed, return the array unchanged;
otherwise mark it smashed and score-showing. -/
def strikeSlots (id : Nat) (tvs : List TVState) : List TVState :=
  match tvs.find? (fun t => t.id == id) with
  | none => tvs
  | some tv =>
      if !tv.isVisible || tv.isSmashed then tvs
      else tvs.map (fun t =>
        if t.id = id then { t with isSmashed := true, showScore := true } else t)

/-- The `smashTV` callback (lines 113-147).  It returns immediately unless
the phase is `playing`.  The slot-validity guard lives only inside the
`setTvs` updater; the combo increment, the score addition
`100 * min(combo + 1, 5)`, the sparkle emission and the scheduling of the
300ms reversion timeout (recorded in `pendingReverts`) all happen
unconditionally after it, exactly as in the source. -/
def smashTV (id : Nat) (s : GState) : GState :=
  if s.gameState = Phase.playing then
    { s with
      tvs := strikeSlots id s.tvs
      combo := s.combo + 1
      score := s.score + 100 * min (s.combo + 1) 5
      sparkles := s.sparkles + 1
      pendingReverts := s.pendingReverts ++ [id] }
  else s

/-- The firing of the 300ms reversion timeout scheduled by `smashTV`
(lines 142-146): the slot reverts to hidden, unsmashed, not score-showing.
The source attaches no phase guard to this callback; firing also consumes
the pending entry. -/
def revertTV (id : Nat) (s : GState) : GState :=
  { s with
    tvs := s.tvs.map (fun t =>
      if t.id = id then
        { t with isVisible := false, isSmashed := false, showScore := false }
      else t)
    pendingReverts := s.pendingReverts.erase id }

/-- One atomic event of the single-threaded event queue: a start click, a
timer tick, one spawn firing, one escape-monitor firing, a strike, a
reversion-timeout firing, or one run of the settlement effect. -/
inductive Step : GState → GState → Prop
  | start (s : GState) : Step s (startGame s)
  | clock (s : GState) : Step s (tick s)
  | spawn (k : Nat) (s : GState) : Step s (spawnTV k s)
  | escape (esc : Nat → Bool) (s : GState) : Step s (escapeTick esc s)
  | strike (id : Nat) (s : GState) : Step s (smashTV id s)
  | revert (id : Nat) (s : GState) : Step s (revertTV id s)
  | settle (s : GState) : Step s (settleHighScore s).1

/-- States reachable from process start by any sequence of events. -/
def Reachable (saved : Nat) (s : GState) : Prop :=
  Relation.ReflTransGen Step (initState saved) s

/-- Slot invariant of the spec data model: a smashed slot is visible. -/
def SlotInv (s : GState) : Prop :=
  ∀ tv ∈ s.tvs, tv.isSmashed = true → tv.isVisible = true

/-- Well-formedness of the slot array: slot ids are pairwise distinct. -/
def IdsOK (s : GState) : Prop :=
  (s.tvs.map (fun tv => tv.id)).Nodup

/-- Example state for claim C1: mid-round, slot 0 is revealed and already
struck, every other slot hidden. -/
def c1State : GState :=
  { score := 0
    highScore := 0
    timeLeft := 20
    gameState := Phase.playing
    tvs := (List.range 9).map (fun i =>
      { id := i, isVisible := i == 0, isSmashed := i == 0, showScore := i == 0 })
    sparkles := 0
    combo := 0
    missedCount := 0
    pendingReverts := [] }

/-- Claim C1: the spec says a strike on an already-struck (or hidden) slot is
a silent no-op with no state change.  The code violates this: the validity
guard sits only inside the `setTvs` updater, so striking slot 0 of `c1State`
(revealed but already struck) leaves the slot array unchanged yet still
increments the combo, adds `100 * min(combo + 1, 5)` points, emits a sparkle
and schedules a 300ms reversion. -/
theorem strike_on_struck_slot_not_noop :
    (smashTV 0 c1State).tvs = c1State.tvs ∧
    (smashTV 0 c1State).score = c1State.score + 100 ∧
    (smashTV 0 c1State).combo = c1State.combo + 1 ∧
    (smashTV 0 c1State).sparkles = c1State.sparkles + 1 ∧
    (smashTV 0 c1State).pendingReverts ≠ c1State.pendingReverts := by
  decide

/-- Claim C9: while the phase is not `playing`, a strike on any slot id is a
complete no-op: the whole state, slots, score, combo, missed count and
transient effects included, is returned unchanged. -/
theorem strike_requires_playing (id : Nat) (s : GState)
    (h : s.gameState ≠ Phase.playing) : smashTV id s = s := by
  simp [smashTV, h]

/-- Witness for claim C9 at a concrete non-playing state. -/
theorem strike_requires_playing_witness :
    (initState 0).gameState ≠ Phase.playing ∧ smashTV 4 (initState 0) = initState 0 :=
  ⟨by decide, strike_requires_playing 4 (initState 0) (by decide)⟩

/-- Claim C10: within a round, `missedCount` never decreases: the timer tick,
a spawn firing, a strike, a reversion firing and the settlement effect leave
it exactly unchanged, and an escape-monitor firing only adds the number of
slots that escaped in it (one per escape), so it is monotonically
non-decreasing across every operation other than the round-start reset. -/
theorem missedCount_monotone (s : GState) (k id j : Nat) (esc : Nat → Bool) :
    (tick s).missedCount = s.missedCount ∧
    (spawnTV k s).missedCount = s.missedCount ∧
    (smashTV id s).missedCount = s.missedCount ∧
    (revertTV j s).missedCount = s.missedCount ∧
    ((settleHighScore s).1).missedCount = s.missedCount ∧
    (escapeTick esc s).missedCount =
      s.missedCount +
        (if s.gameState = Phase.playing
          then (s.tvs.filter (escapeDraw esc)).length else 0) ∧
    s.missedCount ≤ (escapeTick esc s).missedCount := by
  refine ⟨?_, ?_, ?_, ?_, ?_, ?_, ?_⟩
  · unfold tick; split <;> [skip; rfl]; split <;> rfl
  · unfold spawnTV; split <;> [skip; rfl]
    dsimp only
    split <;> rfl
  · unfold smashTV; split <;> rfl
  · rfl
  · unfold settleHighScore; split <;> rfl
  · unfold escapeTick; split <;> simp
  · unfold escapeTick; split <;> simp

/-- Claim C5: starting from `idle` or `ended`, `startGame` yields nine slots
(ids 0..8) all hidden and unstruck, zero score, combo and missed count, a
30-second timer, and phase `playing`. -/
theorem start_resets_round (s : GState)
    (_h : s.gameState = Phase.idle ∨ s.gameState = Phase.ended) :
    (startGame s).tvs = initTvs ∧
    (startGame s).tvs.length = 9 ∧
    (startGame s).tvs.map (fun tv => tv.id) = List.range 9 ∧
    (∀ tv ∈ (startGame s).tvs, tv.isVisible = false ∧ tv.isSmashed = false) ∧
    (startGame s).score = 0 ∧
    (startGame s).combo = 0 ∧
    (startGame s).missedCount = 0 ∧
    (startGame s).timeLeft = 30 ∧
    (startGame s).gameState = Phase.playing := by
  refine ⟨rfl, ?_, ?_, ?_, rfl, rfl, rfl, rfl, rfl⟩
  · show initTvs.length = 9
    decide
  · show initTvs.map (fun tv => tv.id) = List.range 9
    decide
  · show ∀ tv ∈ initTvs, tv.isVisible = false ∧ tv.isSmashed = false
    decide

/-- Witness for claim C5: start from the idle initial state. -/
theorem start_resets_round_witness :
    ((initState 0).gameState = Phase.idle ∨ (initState 0).gameState = Phase.ended) ∧
    (startGame (initState 0)).score = 0 ∧
    (startGame (initState 0)).timeLeft = 30 ∧
    (startGame (initState 0)).gameState = Phase.playing :=
  ⟨Or.inl rfl,
    (start_resets_round (initState 0) (Or.inl rfl)).2.2.2.2.1,
    (start_resets_round (initState 0) (Or.inl rfl)).2.2.2.2.2.2.2.1,
    (start_resets_round (initState 0) (Or.inl rfl)).2.2.2.2.2.2.2.2⟩

/-- Claim C3: settlement of an ended round sets the best score to the maximum
of the previous best and the final score, persists exactly when the final
score strictly exceeds the previous best, and never decreases the best. -/
theorem settlement_max (s : GState) (h : s.gameState = Phase.ended) :
    ((settleHighScore s).1).highScore = max s.highScore s.score ∧
    ((settleHighScore s).2 = true ↔ s.highScore < s.score) ∧
    s.highScore ≤ ((settleHighScore s).1).highScore := by
  unfold settleHighScore
  by_cases h2 : s.highScore < s.score
  · simp [h, h2]
    omega
  · simp [h, h2]
    omega

/-- Example state for the claim C3 witness: an ended round that beat the
previous best score. -/
def c3State : GState :=
  { score := 500
    highScore := 200
    timeLeft := 0
    gameState := Phase.ended
    tvs := initTvs
    sparkles := 0
    combo := 2
    missedCount := 3
    pendingReverts := [] }

/-- Witness for claim C3 at `c3State`. -/
theorem settlement_max_witness :
    c3State.gameState = Phase.ended ∧
    (((settleHighScore c3State).1).highScore = max c3State.highScore c3State.score ∧
      ((settleHighScore c3State).2 = true ↔ c3State.highScore < c3State.score) ∧
      c3State.highScore ≤ ((settleHighScore c3State).1).highScore) :=
  ⟨rfl, settlement_max c3State rfl⟩

/-- Example state for claim C2: mid-round, slot 0 revealed and unstruck, so a
strike on it is valid and schedules a 300ms reversion. -/
def c2State : GState :=
  { score := 0
    highScore := 0
    timeLeft := 20
    gameState := Phase.playing
    tvs := (List.range 9).map (fun i =>
      { id := i, isVisible := i == 0, isSmashed := false, showScore := false })
    sparkles := 0
    combo := 0
    missedCount := 0
    pendingReverts := [] }

/-- Claim C2 counterexample: the 300ms reversion scheduled by a valid strike
is NOT cancelled by a round reset.  The source keeps no handle to the
`setTimeout` and never calls `clearTimeout`, so after striking slot 0 and
resetting via `startGame` the reversion is still pending. -/
theorem pending_revert_survives_reset :
    (startGame (smashTV 0 c2State)).pendingReverts = [0] := by
  decide

/-- Claim C2 (amended): pending reversions survive round end and reset, but a
stale reversion cannot corrupt a subsequent round: firing it on a freshly
reset round leaves every slot unchanged (it writes the hidden-unstruck state
the fresh slots already have), and it comes due within 300ms of its strike,
before the new round can spawn its first slot (the first spawn interval is at
least `spawnBase 30 = 1200` ms after the reset, which is after the strike). -/
theorem stale_revert_harmless (s : GState) (id : Nat) (tStrike tReset : Int)
    (h : tStrike ≤ tReset) :
    (revertTV id (startGame s)).tvs = (startGame s).tvs ∧
    tStrike + 300 < tReset + spawnBase 30 := by
  constructor
  · have hall : ∀ t ∈ initTvs,
        (if t.id = id then
          { t with isVisible := false, isSmashed := false, showScore := false }
        else t) = t := by
      intro t ht
      simp only [initTvs, List.mem_map, List.mem_range] at ht
      obtain ⟨i, hi, rfl⟩ := ht
      by_cases hid : i = id <;> simp [hid]
    exact (List.map_congr_left hall).trans (List.map_id _)
  · have hb : spawnBase 30 = 1200 := by decide
    omega

/-- Witness for the amended claim C2 at concrete times (strike and reset at
time 0) and slot 3. -/
theorem stale_revert_harmless_witness :
    (0 : Int) ≤ 0 ∧
    ((revertTV 3 (startGame (initState 0))).tvs = (startGame (initState 0)).tvs ∧
      (0 : Int) + 300 < 0 + spawnBase 30) :=
  ⟨le_refl 0, stale_revert_harmless (initState 0) 3 0 0 (le_refl 0)⟩

/-- The timer is inert outside the `playing` phase: the timer effect returns
early and its cleanup clears the interval on phase exit. -/
theorem tick_not_playing (s : GState) (h : s.gameState ≠ Phase.playing) :
    tick s = s := by
  simp [tick, h]

/-- Iterated form of `tick_not_playing`. -/
theorem iterate_tick_not_playing (s : GState) (h : s.gameState ≠ Phase.playing)
    (k : Nat) : tick^[k] s = s := by
  induction k with
  | zero => rfl
  | succ n ih => rw [Function.iterate_succ_apply', ih, tick_not_playing s h]

/-- Closed form of the round clock for the first 30 ticks after a start. -/
theorem clock_core (s : GState) :
    ∀ n, n ≤ 30 →
      (tick^[n] (startGame s)).timeLeft = 30 - (n : Int) ∧
      (tick^[n] (startGame s)).gameState =
        (if n = 30 then Phase.ended else Phase.playing) := by
  intro n
  induction n with
  | zero => intro _; exact ⟨rfl, rfl⟩
  | succ m ih =>
      intro hm
      have hm30 : m ≤ 30 := Nat.le_of_succ_le hm
      have hmlt : m < 30 := Nat.lt_of_succ_le hm
      obtain ⟨ht, hg⟩ := ih hm30
      have hg2 : (tick^[m] (startGame s)).gameState = Phase.playing := by
        rw [hg, if_neg (Nat.ne_of_lt hmlt)]
      rw [Function.iterate_succ_apply']
      by_cases hlast : m + 1 = 30
      · have ht1 : (tick^[m] (startGame s)).timeLeft ≤ 1 := by
          rw [ht]; omega
        constructor
        · simp [tick, hg2, ht1]
          omega
        · simp [tick, hg2, ht1, hlast]
      · have ht2 : ¬ (tick^[m] (startGame s)).timeLeft ≤ 1 := by
          rw [ht]; omega
        constructor
        · simp [tick, hg2, ht2]
          rw [ht]; ring
        · simp [tick, hg2, ht2, hlast]

/-- Claim C4: along a round started by `startGame`, each of the first 30
ticks decrements the timer by exactly one while the phase stays `playing`;
the timer is never negative, hits 0 exactly at and after the 30th tick, the
state is frozen from the 30th tick on (the clock has stopped), and the
`playing → ended` transition fires at exactly one tick, the 30th. -/
theorem clock_round (s : GState) :
    (∀ n, n < 30 → (tick^[n] (startGame s)).gameState = Phase.playing ∧
      (tick^[n] (startGame s)).timeLeft = 30 - (n : Int)) ∧
    (tick^[30] (startGame s)).gameState = Phase.ended ∧
    (tick^[30] (startGame s)).timeLeft = 0 ∧
    (∀ n, 0 ≤ (tick^[n] (startGame s)).timeLeft) ∧
    (∀ n, (tick^[n] (startGame s)).timeLeft = 0 ↔ 30 ≤ n) ∧
    (∀ n, 30 ≤ n → tick^[n] (startGame s) = tick^[30] (startGame s)) ∧
    (∀ n, ((tick^[n] (startGame s)).gameState = Phase.playing ∧
      (tick^[n + 1] (startGame s)).gameState = Phase.ended) ↔ n = 29) := by
  have h30g : (tick^[30] (startGame s)).gameState = Phase.ended := by
    have h2 := (clock_core s 30 le_rfl).2
    rw [h2]
    exact if_pos rfl
  have h30t : (tick^[30] (startGame s)).timeLeft = 0 := by
    have h2 := (clock_core s 30 le_rfl).1
    rw [h2]
    norm_num
  have hfrozen : ∀ n, 30 ≤ n → tick^[n] (startGame s) = tick^[30] (startGame s) := by
    intro n hn
    obtain ⟨k, rfl⟩ : ∃ k, n = k + 30 := ⟨n - 30, by omega⟩
    rw [Function.iterate_add_apply]
    have hne : (tick^[30] (startGame s)).gameState ≠ Phase.playing := by
      rw [h30g]
      decide
    exact iterate_tick_not_playing _ hne k
  have hearly : ∀ n, n < 30 → (tick^[n] (startGame s)).gameState = Phase.playing ∧
      (tick^[n] (startGame s)).timeLeft = 30 - (n : Int) := by
    intro n hn
    obtain ⟨ht, hg⟩ := clock_core s n (Nat.le_of_lt hn)
    exact ⟨by rw [hg, if_neg (Nat.ne_of_lt hn)], ht⟩
  refine ⟨hearly, h30g, h30t, ?_, ?_, hfrozen, ?_⟩
  · intro n
    rcases Nat.lt_or_ge n 30 with hn | hn
    · rw [(hearly n hn).2]; omega
    · rw [hfrozen n hn, h30t]
  · intro n
    rcases Nat.lt_or_ge n 30 with hn | hn
    · rw [(hearly n hn).2]
      omega
    · rw [hfrozen n hn, h30t]
      simp [hn]
  · intro n
    constructor
    · rintro ⟨hp, he⟩
      by_contra hne
      rcases Nat.lt_or_ge n 29 with hn | hn
      · have := (hearly (n + 1) (by omega)).1
        rw [this] at he
        exact absurd he (by decide)
      · have hn30 : 30 ≤ n := by omega
        rw [hfrozen n hn30, h30g] at hp
        exact absurd hp (by decide)
    · rintro rfl
      exact ⟨(hearly 29 (by omega)).1, h30g⟩

/-- Witness for claim C4: concrete round from the initial state. -/
theorem clock_round_witness :
    (tick^[30] (startGame (initState 0))).gameState = Phase.ended ∧
    (tick^[30] (startGame (initState 0))).timeLeft = 0 :=
  ⟨(clock_round (initState 0)).2.1, (clock_round (initState 0)).2.2.1⟩

/-- The timer tick never touches the slot array. -/
theorem tick_tvs (s : GState) : (tick s).tvs = s.tvs := by
  unfold tick
  split
  · split <;> rfl
  · rfl

/-- Settlement never touches the slot array. -/
theorem settle_tvs (s : GState) : ((settleHighScore s).1).tvs = s.tvs := by
  unfold settleHighScore
  split <;> rfl

/-- The slot invariant depends only on the slot array. -/
theorem slotInv_of_tvs_eq (s s2 : GState) (h : s2.tvs = s.tvs)
    (hi : SlotInv s) : SlotInv s2 := by
  intro tv htv
  exact hi tv (h ▸ htv)

/-- Id well-formedness depends only on the slot array. -/
theorem idsOK_of_tvs_eq (s s2 : GState) (h : s2.tvs = s.tvs)
    (hi : IdsOK s) : IdsOK s2 := by
  unfold IdsOK at *
  rw [h]
  exact hi

/-- Mapping an id-preserving function over the slot array keeps the listing
of ids. -/
theorem ids_map (l : List TVState) (f : TVState → TVState)
    (hf : ∀ t, (f t).id = t.id) :
    (l.map f).map (fun tv => tv.id) = l.map (fun tv => tv.id) := by
  rw [List.map_map]
  exact List.map_congr_left (fun a _ => hf a)

/-- The initial state satisfies the slot invariant. -/
theorem init_slotInv (saved : Nat) : SlotInv (initState saved) := by
  intro tv htv
  have hall : ∀ tv ∈ initTvs, tv.isSmashed = true → tv.isVisible = true := by
    decide
  exact hall tv htv

/-- The initial state has pairwise distinct slot ids. -/
theorem init_idsOK (saved : Nat) : IdsOK (initState saved) := by
  show (initTvs.map (fun tv => tv.id)).Nodup
  decide

/-- Every single event preserves the slot invariant together with id
distinctness. -/
theorem step_preserves_inv (s s2 : GState) (hstep : Step s s2)
    (h1 : SlotInv s) (h2 : IdsOK s) : SlotInv s2 ∧ IdsOK s2 := by
  cases hstep with
  | start =>
      constructor
      · intro tv htv
        have hall : ∀ tv ∈ initTvs, tv.isSmashed = true → tv.isVisible = true := by
          decide
        exact hall tv htv
      · show (initTvs.map (fun tv => tv.id)).Nodup
        decide
  | clock =>
      exact ⟨slotInv_of_tvs_eq _ _ (tick_tvs s) h1,
        idsOK_of_tvs_eq _ _ (tick_tvs s) h2⟩
  | settle =>
      exact ⟨slotInv_of_tvs_eq _ _ (settle_tvs s) h1,
        idsOK_of_tvs_eq _ _ (settle_tvs s) h2⟩
  | spawn k =>
      by_cases hp : s.gameState = Phase.playing
      · cases hget : (s.tvs.filter (fun tv => !tv.isVisible && !tv.isSmashed))[k %
            (s.tvs.filter (fun tv => !tv.isVisible && !tv.isSmashed)).length]? with
        | none =>
            have heq : spawnTV k s = s := by
              simp [spawnTV, hp, List.get?_eq_getElem?, hget]
            rw [heq]
            exact ⟨h1, h2⟩
        | some tv0 =>
            have htvs : (spawnTV k s).tvs = s.tvs.map (fun tv =>
                if tv.id = tv0.id then
                  { tv with isVisible := true, isSmashed := false, showScore := false }
                else tv) := by
              simp [spawnTV, hp, List.get?_eq_getElem?, hget]
            constructor
            · intro tv htv
              rw [htvs] at htv
              obtain ⟨t, ht, rfl⟩ := List.mem_map.1 htv
              by_cases hid : t.id = tv0.id
              · rw [if_pos hid]
                intro hc
                exact Bool.noConfusion hc
              · rw [if_neg hid]
                exact h1 t ht
            · show ((spawnTV k s).tvs.map (fun tv => tv.id)).Nodup
              rw [htvs]
              have hf : ∀ t : TVState, ((fun tv =>
                  if tv.id = tv0.id then
                    { tv with isVisible := true, isSmashed := false, showScore := false }
                  else tv) t).id = t.id := by
                intro t
                by_cases hid : t.id = tv0.id <;> simp [hid]
              rw [ids_map _ _ hf]
              exact h2
      · have heq : spawnTV k s = s := by simp [spawnTV, hp]
        rw [heq]
        exact ⟨h1, h2⟩
  | escape esc =>
      by_cases hp : s.gameState = Phase.playing
      · have htvs : (escapeTick esc s).tvs = s.tvs.map (fun tv =>
            if tv.isVisible && !tv.isSmashed then
              if esc tv.id then { tv with isVisible := false } else tv
            else tv) := by
          simp [escapeTick, hp]
        constructor
        · intro tv htv
          rw [htvs] at htv
          obtain ⟨t, ht, rfl⟩ := List.mem_map.1 htv
          split
          · split
            · intro hsm2
              rename_i hcond hesc
              have hsm3 : t.isSmashed = true := hsm2
              cases hsm0 : t.isSmashed with
              | false => rw [hsm0] at hsm3; exact Bool.noConfusion hsm3
              | true => rw [hsm0] at hcond; simp at hcond
            · exact h1 t ht
          · exact h1 t ht
        · show ((escapeTick esc s).tvs.map (fun tv => tv.id)).Nodup
          rw [htvs]
          have hf : ∀ t : TVState, ((fun tv =>
              if tv.isVisible && !tv.isSmashed then
                if esc tv.id then { tv with isVisible := false } else tv
              else tv) t).id = t.id := by
            intro t
            dsimp only
            split
            · split <;> rfl
            · rfl
          rw [ids_map _ _ hf]
          exact h2
      · have heq : escapeTick esc s = s := by simp [escapeTick, hp]
        rw [heq]
        exact ⟨h1, h2⟩
  | strike id =>
      by_cases hp : s.gameState = Phase.playing
      · have htvs : (smashTV id s).tvs = strikeSlots id s.tvs := by
          simp [smashTV, hp]
        constructor
        · intro tv htv
          rw [htvs] at htv
          unfold strikeSlots at htv
          cases hfind : s.tvs.find? (fun t => t.id == id) with
          | none =>
              simp only [hfind] at htv
              exact h1 tv htv
          | some tv0 =>
              simp only [hfind] at htv
              by_cases hguard : (!tv0.isVisible || tv0.isSmashed) = true
              · rw [if_pos hguard] at htv
                exact h1 tv htv
              · rw [if_neg hguard] at htv
                obtain ⟨t, ht, rfl⟩ := List.mem_map.1 htv
                by_cases hid : t.id = id
                · have htv0mem : tv0 ∈ s.tvs := List.mem_of_find?_eq_some hfind
                  have htv0id : tv0.id = id := by
                    have hs := List.find?_some hfind
                    simpa using hs
                  have hteq : t = tv0 :=
                    List.inj_on_of_nodup_map h2 ht htv0mem (by rw [hid, htv0id])
                  rw [if_pos hid]
                  intro _
                  show t.isVisible = true
                  rw [hteq]
                  simp only [Bool.or_eq_true, Bool.not_eq_true, not_or] at hguard
                  have hv := hguard.1
                  simpa using hv
                · rw [if_neg hid]
                  exact h1 t ht
        · show ((smashTV id s).tvs.map (fun tv => tv.id)).Nodup
          rw [htvs]
          unfold strikeSlots
          cases hfind : s.tvs.find? (fun t => t.id == id) with
          | none =>
              simp only [hfind]
              exact h2
          | some tv0 =>
              simp only [hfind]
              by_cases hguard : (!tv0.isVisible || tv0.isSmashed) = true
              · rw [if_pos hguard]
                exact h2
              · rw [if_neg hguard]
                have hf : ∀ t : TVState, ((fun t =>
                    if t.id = id then { t with isSmashed := true, showScore := true }
                    else t) t).id = t.id := by
                  intro t
                  by_cases hid : t.id = id <;> simp [hid]
                rw [ids_map _ _ hf]
                exact h2
      · have heq : smashTV id s = s := by simp [smashTV, hp]
        rw [heq]
        exact ⟨h1, h2⟩
  | revert id =>
      constructor
      · intro tv htv
        obtain ⟨t, ht, rfl⟩ := List.mem_map.1 htv
        by_cases hid : t.id = id
        · rw [if_pos hid]
          intro hc
          exact Bool.noConfusion hc
        · rw [if_neg hid]
          exact h1 t ht
      · show ((revertTV id s).tvs.map (fun tv => tv.id)).Nodup
        have htvs : (revertTV id s).tvs = s.tvs.map (fun t =>
            if t.id = id then
              { t with isVisible := false, isSmashed := false, showScore := false }
            else t) := rfl
        rw [htvs]
        have hf : ∀ t : TVState, ((fun t =>
            if t.id = id then
              { t with isVisible := false, isSmashed := false, showScore := false }
            else t) t).id = t.id := by
          intro t
          by_cases hid : t.id = id <;> simp [hid]
        rw [ids_map _ _ hf]
        exact h2

/-- The invariants propagate along any event sequence. -/
theorem reflTrans_inv (a s : GState) (h : Relation.ReflTransGen Step a s)
    (ha : SlotInv a ∧ IdsOK a) : SlotInv s ∧ IdsOK s := by
  induction h with
  | refl => exact ha
  | tail hpre hstep ih => exact step_preserves_inv _ _ hstep ih.1 ih.2

/-- Claim C7: in every reachable state a struck slot is revealed, so each
slot is in one of exactly three states (hidden-unstruck, revealed-unstruck,
revealed-struck) and hidden-struck is unreachable; the invariant is also
preserved by whatever single operation (start, tick, spawn, escape, strike,
reversion, settlement) is applied next. -/
theorem struck_implies_revealed (saved : Nat) (s s2 : GState)
    (h : Reachable saved s) (hstep : Step s s2) : SlotInv s ∧ SlotInv s2 := by
  have hs := reflTrans_inv _ _ h ⟨init_slotInv saved, init_idsOK saved⟩
  exact ⟨hs.1, (step_preserves_inv _ _ hstep hs.1 hs.2).1⟩

/-- Witness for claim C7: the initial state is reachable and the start
action preserves the invariant. -/
theorem struck_implies_revealed_witness :
    Reachable 0 (initState 0) ∧
    (SlotInv (initState 0) ∧ SlotInv (startGame (initState 0))) :=
  ⟨Relation.ReflTransGen.refl,
    struck_implies_revealed 0 (initState 0) (startGame (initState 0))
      Relation.ReflTransGen.refl (Step.start (initState 0))⟩

/-- Spec-side description of one Escape Monitor firing (spec section 4.4),
stated from the spec words for refinement against the source-side
`escapeTick`: while playing, every slot currently revealed and unstruck is
hidden exactly when its draw succeeds, the combo is reset to 0 when at least
one slot escapes (unchanged otherwise), and each escaping slot independently
adds 1 to the missed count. -/
def escapeSpecStep (esc : Nat → Bool) (s : GState) : GState :=
  if s.gameState = Phase.playing then
    { s with
      tvs := s.tvs.map (fun tv =>
        if tv.isVisible && !tv.isSmashed && esc tv.id then
          { tv with isVisible := false }
        else tv)
      combo :=
        if s.tvs.countP (fun tv => tv.isVisible && !tv.isSmashed && esc tv.id) = 0
        then s.combo else 0
      missedCount := s.missedCount +
        s.tvs.countP (fun tv => tv.isVisible && !tv.isSmashed && esc tv.id) }
  else s

/-- Claim C8: while playing, the escape-monitor firing of the source equals
the spec description (each revealed-unstruck slot escapes exactly when its
draw falls below 0.15, one missed-count increment per escape), and the combo
is 0 after the firing whenever at least one slot escaped, regardless of
which slot it was. -/
theorem escape_refines_spec (esc : Nat → Bool) (s : GState)
    (h : s.gameState = Phase.playing) :
    escapeTick esc s = escapeSpecStep esc s ∧
    ((∃ tv ∈ s.tvs, tv.isVisible = true ∧ tv.isSmashed = false ∧ esc tv.id = true) →
      (escapeTick esc s).combo = 0) := by
  constructor
  · unfold escapeTick escapeSpecStep
    rw [if_pos h, if_pos h]
    have hX : s.tvs.map (fun tv =>
        if tv.isVisible && !tv.isSmashed then
          if esc tv.id then { tv with isVisible := false } else tv
        else tv) = s.tvs.map (fun tv =>
        if tv.isVisible && !tv.isSmashed && esc tv.id then
          { tv with isVisible := false }
        else tv) := by
      apply List.map_congr_left
      intro t _
      cases hv : t.isVisible <;> cases hs0 : t.isSmashed <;>
        cases he : esc t.id <;> simp [hv, hs0, he]
    have hY : (if (s.tvs.filter (escapeDraw esc)).isEmpty then s.combo else 0) =
        (if s.tvs.countP (fun tv => tv.isVisible && !tv.isSmashed && esc tv.id) = 0
        then s.combo else 0) := by
      simp [escapeDraw, List.isEmpty_iff_length_eq_zero, List.countP_eq_length_filter]
    have hZ : s.missedCount + (s.tvs.filter (escapeDraw esc)).length =
        s.missedCount +
          s.tvs.countP (fun tv => tv.isVisible && !tv.isSmashed && esc tv.id) := by
      rw [List.countP_eq_length_filter]
      rfl
    rw [hX, hY, hZ]
  · rintro ⟨tv, htv, hv, hsm, he⟩
    have hmem : tv ∈ s.tvs.filter (escapeDraw esc) := by
      rw [List.mem_filter]
      exact ⟨htv, by simp [escapeDraw, hv, hsm, he]⟩
    have hne2 : ¬ (s.tvs.filter (escapeDraw esc)).isEmpty = true := by
      rw [List.isEmpty_iff]
      exact List.ne_nil_of_mem hmem
    simp [escapeTick, h, hne2]

/-- Example state for the claim C8 witness: slot 0 revealed and unstruck. -/
def c8State : GState :=
  { score := 0
    highScore := 0
    timeLeft := 15
    gameState := Phase.playing
    tvs := (List.range 9).map (fun i =>
      { id := i, isVisible := i == 0, isSmashed := false, showScore := false })
    sparkles := 0
    combo := 3
    missedCount := 0
    pendingReverts := [] }

/-- Witness for claim C8: every draw succeeds, slot 0 escapes, combo drops
to 0. -/
theorem escape_refines_spec_witness :
    c8State.gameState = Phase.playing ∧
    escapeTick (fun _ => true) c8State = escapeSpecStep (fun _ => true) c8State ∧
    (escapeTick (fun _ => true) c8State).combo = 0 :=
  ⟨rfl, (escape_refines_spec (fun _ => true) c8State rfl).1,
    (escape_refines_spec (fun _ => true) c8State rfl).2
      ⟨{ id := 0, isVisible := true, isSmashed := false, showScore := false },
        by decide, rfl, rfl, rfl⟩⟩

/-- The strike guard of the source (lines 114 and 118), as a boolean: the
phase is `playing` and the slot with this id exists, is visible and not
already smashed. -/
def validStrike (id : Nat) (s : GState) : Bool :=
  decide (s.gameState = Phase.playing) &&
    (match s.tvs.find? (fun t => t.id == id) with
     | none => false
     | some tv => tv.isVisible && !tv.isSmashed)

/-- A chain of strikes, each valid in the state it is applied to. -/
def validChain : List Nat → GState → Bool
  | [], _ => true
  | id :: rest, s => validStrike id s && validChain rest (smashTV id s)

/-- Folding a sequence of strike actions over the state. -/
def strikeSeq (ids : List Nat) (s : GState) : GState :=
  ids.foldl (fun st id => smashTV id st) s

/-- Cumulative points of `n` consecutive strikes starting at combo `c`: the
(i+1)-st strike awards `100 * min (c + i + 1) 5`. -/
def comboPoints : Nat → Nat → Nat
  | _, 0 => 0
  | c, n + 1 => 100 * min (c + 1) 5 + comboPoints (c + 1) n

/-- Effect of a valid strike on score, combo and phase. -/
theorem smashTV_valid (id : Nat) (s : GState) (h : validStrike id s = true) :
    (smashTV id s).score = s.score + 100 * min (s.combo + 1) 5 ∧
    (smashTV id s).combo = s.combo + 1 ∧
    (smashTV id s).gameState = s.gameState := by
  have hp : s.gameState = Phase.playing := by
    unfold validStrike at h
    simp only [Bool.and_eq_true, decide_eq_true_eq] at h
    exact h.1
  refine ⟨?_, ?_, ?_⟩ <;> simp [smashTV, hp]

/-- Score and combo after a chain of valid strikes. -/
theorem strikeSeq_score (ids : List Nat) (s : GState)
    (hv : validChain ids s = true) :
    (strikeSeq ids s).score = s.score + comboPoints s.combo ids.length ∧
    (strikeSeq ids s).combo = s.combo + ids.length := by
  induction ids generalizing s with
  | nil => exact ⟨by simp [strikeSeq, comboPoints], by simp [strikeSeq]⟩
  | cons id rest ih =>
      simp only [validChain, Bool.and_eq_true] at hv
      obtain ⟨h1, h2⟩ := hv
      have hstep := smashTV_valid id s h1
      have hrest := ih (smashTV id s) h2
      constructor
      · show (strikeSeq rest (smashTV id s)).score = _
        rw [hrest.1, hstep.1, hstep.2.1]
        simp only [List.length_cons, comboPoints]
        omega
      · show (strikeSeq rest (smashTV id s)).combo = _
        rw [hrest.2, hstep.2.1]
        simp only [List.length_cons]
        omega

/-- `comboPoints` equals the closed-form sum of the spec formula. -/
theorem comboPoints_formula (c n : Nat) :
    comboPoints c n = ∑ i in Finset.range n, 100 * min (c + i + 1) 5 := by
  induction n generalizing c with
  | zero => simp [comboPoints]
  | succ m ih =>
      rw [comboPoints, ih, Finset.sum_range_succ']
      have hcg : ∀ i, 100 * min (c + 1 + i + 1) 5 = 100 * min (c + (i + 1) + 1) 5 := by
        intro i
        congr 2
        omega
      rw [Finset.sum_congr rfl (fun i _ => hcg i)]
      simp only [Nat.add_zero]
      omega

/-- `validChain` splits over list append. -/
theorem validChain_append (a b : List Nat) (s : GState) :
    validChain (a ++ b) s = (validChain a s && validChain b (strikeSeq a s)) := by
  induction a generalizing s with
  | nil => simp [validChain, strikeSeq]
  | cons id rest ih =>
      rw [List.cons_append]
      simp only [validChain]
      rw [ih, Bool.and_assoc]
      rfl

/-- `strikeSeq` splits over list append. -/
theorem strikeSeq_append (a b : List Nat) (s : GState) :
    strikeSeq (a ++ b) s = strikeSeq b (strikeSeq a s) := by
  simp [strikeSeq, List.foldl_append]

/-- Claim C6: along any chain of valid strikes starting at combo 0 with no
intervening escapes, the cumulative score is the sum over the chain of the
spec formula, and the (n+1)-st strike awards exactly `100 * min (n + 1) 5`
points (so each strike is worth 100, 200, 300, 400 or 500). -/
theorem strike_combo_scoring (ids : List Nat) (s : GState)
    (h0 : s.combo = 0) (hv : validChain ids s = true) :
    (strikeSeq ids s).score =
      s.score + ∑ i in Finset.range ids.length, 100 * min (i + 1) 5 ∧
    ∀ n, n < ids.length →
      (strikeSeq (ids.take (n + 1)) s).score =
        (strikeSeq (ids.take n) s).score + 100 * min (n + 1) 5 := by
  constructor
  · rw [(strikeSeq_score ids s hv).1, h0, comboPoints_formula]
    simp only [Nat.zero_add]
  · intro n hn
    have htake : ids.take (n + 1) = ids.take n ++ [ids[n]] := by
      rw [List.take_succ, List.getElem?_eq_getElem hn]
      rfl
    have hvAll := validChain_append (ids.take (n + 1)) (ids.drop (n + 1)) s
    rw [List.take_append_drop] at hvAll
    have hvTake : validChain (ids.take (n + 1)) s = true := by
      have h3 := hvAll ▸ hv
      simp only [Bool.and_eq_true] at h3
      exact h3.1
    rw [htake, validChain_append, Bool.and_eq_true] at hvTake
    obtain ⟨hA, hB⟩ := hvTake
    simp only [validChain, Bool.and_true] at hB
    have hcomboN : (strikeSeq (ids.take n) s).combo = n := by
      rw [(strikeSeq_score (ids.take n) s hA).2, h0, List.length_take]
      omega
    have hstep := smashTV_valid (ids[n]) (strikeSeq (ids.take n) s) hB
    rw [htake, strikeSeq_append]
    have hone : strikeSeq [ids[n]] (strikeSeq (ids.take n) s) =
        smashTV (ids[n]) (strikeSeq (ids.take n) s) := rfl
    rw [hone, hstep.1, hcomboN]

/-- Example state for the claim C6 witness: slots 0 and 1 revealed and
unstruck, combo 0. -/
def c6State : GState :=
  { score := 0
    highScore := 0
    timeLeft := 25
    gameState := Phase.playing
    tvs := (List.range 9).map (fun i =>
      { id := i, isVisible := i == 0 || i == 1, isSmashed := false, showScore := false })
    sparkles := 0
    combo := 0
    missedCount := 0
    pendingReverts := [] }

/-- Witness for claim C6: striking slots 0 then 1 from combo 0 yields
100 + 200 = 300 points. -/
theorem strike_combo_scoring_witness :
    c6State.combo = 0 ∧ validChain [0, 1] c6State = true ∧
    (strikeSeq [0, 1] c6State).score =
      c6State.score + ∑ i in Finset.range ([0, 1] : List Nat).length, 100 * min (i + 1) 5 ∧
    (strikeSeq [0, 1] c6State).score = 300 :=
  ⟨rfl, by decide, (strike_combo_scoring [0, 1] c6State rfl (by decide)).1, by decide⟩

end ClankerSmash
